import Mathlib

/-!
Verification of the password-based file-protection engine of a browser
document utility.

The definitions below are a shallow embedding of the TypeScript source.
Byte buffers (`Uint8Array`) are lists of naturals.  The platform primitives
the engine calls out to — PBKDF2 key derivation, AES-GCM sealing/opening and
the JSON metadata codec from `crypto.subtle` / `JSON` / `TextEncoder` — are
collected in a `Backend` record of total functions, since they are not code
of this repository; every piece of logic the repository itself contains
(container layout and offsets, clamped slicing, error mapping, file-type
classification and dispatch) is translated statement by statement from the
source files `file-utils.ts`, `crypto-utils.ts`, `pdf-utils.ts` and
`Encrypt.tsx`.
-/

/-- Byte buffers (`Uint8Array`) modelled as lists of naturals. -/
abbrev Bytes := List Nat

/-- The metadata object built by the metadata-variant `encryptFile` in
`file-utils.ts`: `originalName`, `originalType` (MIME), `originalSize`. -/
structure FileMeta where
  originalName : String
  originalType : String
  originalSize : Nat
deriving DecidableEq

/-- Platform primitives used by the engine, abstracted as total functions:
`kdf` is PBKDF2-SHA-256 key derivation (password, salt ↦ 256-bit key),
`enc` is AES-GCM sealing (key, iv, plaintext ↦ ciphertext with appended tag),
`dec` is AES-GCM opening (`none` models the thrown `OperationError` on tag
verification failure), `stringifyMeta` is `TextEncoder ∘ JSON.stringify` and
`parseMeta` is `JSON.parse ∘ TextDecoder` (`none` models a thrown
`SyntaxError`). -/
structure Backend where
  kdf : String → Bytes → Bytes
  enc : Bytes → Bytes → Bytes → Bytes
  dec : Bytes → Bytes → Bytes → Option Bytes
  stringifyMeta : FileMeta → Bytes
  parseMeta : Bytes → Option FileMeta

/-- Little-endian 4-byte view of a 32-bit value: the bytes of
`new Uint32Array([n]).buffer` on the little-endian platforms the app runs
on (the stored value wraps at 2^32). -/
def u32le (n : Nat) : Bytes :=
  [n % 256, n / 256 % 256, n / 65536 % 256, n / 16777216 % 256]

/-- Reading `new Uint32Array(buf)[0]` from the first four bytes of a
buffer.  The one-to-three-byte case is unreachable: the code throws a
`RangeError` first (see `decryptFileMeta`); the empty case models the
`undefined` element being used as length zero downstream. -/
def leU32 : Bytes → Nat
  | b0 :: b1 :: b2 :: b3 :: _ => b0 + 256 * b1 + 65536 * b2 + 16777216 * b3
  | _ => 0

/-- `encryptFile` of `file-utils.ts` (metadata variant, lines 54-120): the
container is metadata length (4 bytes LE) ++ metadata JSON ++ salt (16) ++
iv (12) ++ AES-GCM ciphertext, with the key derived from (password, salt).
The fresh random `salt` and `iv` drawn by `crypto.getRandomValues` are
passed in explicitly. -/
def encryptFileMeta (b : Backend) (salt iv : Bytes) (password : String)
    (m : FileMeta) (data : Bytes) : Bytes :=
  let metadataBytes := b.stringifyMeta m
  u32le metadataBytes.length ++ metadataBytes ++ salt ++ iv ++
    b.enc (b.kdf password salt) iv data

/-- The field extraction performed by `decryptFile` of `file-utils.ts`
(lines 126-143): metadata length from the first four bytes, then the
metadata slice, then 16 bytes of salt, 12 bytes of iv, and the rest as
ciphertext.  `Uint8Array.slice` clamps to the buffer, which `take`/`drop`
model exactly. -/
structure DecodedFields where
  metaLen : Nat
  metaBytes : Bytes
  salt : Bytes
  iv : Bytes
  ciphertext : Bytes
deriving DecidableEq

def decodeFields (data : Bytes) : DecodedFields :=
  let L := leU32 (data.take 4)
  { metaLen := L
    metaBytes := (data.drop 4).take L
    salt := (data.drop (4 + L)).take 16
    iv := (data.drop (4 + L + 16)).take 12
    ciphertext := data.drop (4 + L + 16 + 12) }

/-- Observable failure kinds of `decryptFile`: `rangeError` is the platform
`RangeError` thrown by `new Uint32Array` on a buffer of 1-3 bytes;
`jsonError` is the `SyntaxError` thrown by `JSON.parse` on a bad metadata
slice; `incorrectPassword` is the caught AEAD failure rethrown as
the thrown incorrect-password error; `malformedContainer` is the
`MalformedContainerError` of the spec taxonomy, included here so that its absence from the
implementation can be stated — no code path produces it. -/
inductive GenDecryptError
  | rangeError
  | jsonError
  | incorrectPassword
  | malformedContainer
deriving DecidableEq

/-- The successful result of `decryptFile`: the decrypted bytes plus the
metadata parsed from the container. -/
structure DecryptedFile where
  plaintext : Bytes
  meta : FileMeta
deriving DecidableEq

instance {ε α : Type} [DecidableEq ε] [DecidableEq α] :
    DecidableEq (Except ε α) := fun a b =>
  match a, b with
  | .ok x, .ok y =>
    if h : x = y then .isTrue (by rw [h]) else
      .isFalse (fun hc => h (Except.ok.inj hc))
  | .ok _, .error _ => .isFalse (fun hc => Except.noConfusion hc)
  | .error _, .ok _ => .isFalse (fun hc => Except.noConfusion hc)
  | .error x, .error y =>
    if h : x = y then .isTrue (by rw [h]) else
      .isFalse (fun hc => h (Except.error.inj hc))

/-- `decryptFile` of `file-utils.ts` (lines 122-185).  A buffer of one to
three bytes makes `new Uint32Array(data.slice(0,4).buffer)` throw a
`RangeError` (byte length not a multiple of four); otherwise the fields are
sliced out with clamping, the metadata slice is JSON-parsed, a key is
derived from (password, extracted salt) and AES-GCM opening runs over the
ciphertext, any failure of which is caught and rethrown as the incorrect
password error.  No structural validation is performed anywhere. -/
def decryptFileMeta (b : Backend) (data : Bytes) (password : String) :
    Except GenDecryptError DecryptedFile :=
  if data.length ≠ 0 ∧ data.length < 4 then .error .rangeError
  else
    let f := decodeFields data
    match b.parseMeta f.metaBytes with
    | none => .error .jsonError
    | some m =>
      match b.dec (b.kdf password f.salt) f.iv f.ciphertext with
      | none => .error .incorrectPassword
      | some p => .ok ⟨p, m⟩

/-- The magic bytes of the magic-variant `encryptFile`: `"ENCF"`. -/
def encfMagic : Bytes := [69, 78, 67, 70]

/-- `encryptFile` of the magic variant (`file-utils.ts` lines 225-254):
magic (4) ++ salt (16) ++ iv (12) ++ AES-GCM ciphertext, no metadata. -/
def encryptFileEncf (b : Backend) (salt iv : Bytes) (password : String)
    (data : Bytes) : Bytes :=
  encfMagic ++ salt ++ iv ++ b.enc (b.kdf password salt) iv data

/-- A browser `File` as the classifier sees it: declared name, declared
MIME type, and content bytes. -/
structure JsFile where
  name : String
  type : String
  bytes : Bytes
deriving DecidableEq

/-- `name.toLowerCase().endsWith(suffix)`: lowercase the string and test
the suffix. -/
def endsWithCI (s suffix : String) : Bool :=
  let l := s.data.map Char.toLower
  let p := suffix.data
  if p.length ≤ l.length then p == l.drop (l.length - p.length) else false

/-- `isPDFFile` of `crypto-utils.ts` (lines 112-114, identical in
`file-utils.ts` lines 267-269): declared MIME type is exactly
`application/pdf`, or the lowercased filename ends with `.pdf`. -/
def isPDFFile (f : JsFile) : Bool :=
  f.type == ("application/pdf") || endsWithCI f.name (".pdf")

/-- The extensions of the image-file regular expression in
`crypto-utils.ts`. -/
def imageExts : List String :=
  ["jpg", "jpeg", "png", "gif", "bmp", "webp", "svg", "ico", "tiff", "tif",
   "heic", "heif", "avif"]

/-- `isImageFile` of `crypto-utils.ts`: declared MIME type starts with
`image/`, or the filename matches the case-insensitive image-extension
regular expression (anchored at the end of the name). -/
def isImageFile (f : JsFile) : Bool :=
  ("image/").data.isPrefixOf f.type.data ||
    imageExts.any (fun e => endsWithCI f.name ("." ++ e))

/-- `s.includes(pat)`: substring test, used to model both the spec wording
`MIME type contains a PDF indicator` and the error-message sniffing of
`decryptPDF`. -/
def containsSubstr (s pat : String) : Bool :=
  (s.data.tails).any (fun t => pat.data.isPrefixOf t)

/-- Modelled from the spec: the section 4.4 decision rule — classify as
`pdf` when the declared MIME type contains a PDF indicator OR the filename
extension, case-insensitively, is `.pdf`.  This is the spec-side rule to be
compared with `isPDFFile` from the source. -/
def specClassifiesPdf (name mimeType : String) : Bool :=
  containsSubstr mimeType ("pdf") || endsWithCI name (".pdf")

/-- Outcome of processing one file inside `handleEncrypt` of
`Encrypt.tsx`: the external QPDF result for PDFs, a generic AES-GCM
container for images, or the caught unsupported-file-type error. -/
inductive FileOutcome
  | protectedPdf (bytes : Bytes)
  | genericEncrypted (bytes : Bytes)
  | unsupportedError
deriving DecidableEq

/-- The per-file dispatch of `handleEncrypt` (`Encrypt.tsx` lines 58-73):
PDF-classified files go verbatim (bytes and password unmodified) to the
external QPDF collaborator `qpdf`; image-classified files go to the generic
engine `encryptFileEncf`; everything else throws `Unsupported file type`,
caught per file. -/
def routeFile (qpdf : Bytes → String → Bytes) (b : Backend) (salt iv : Bytes)
    (f : JsFile) (password : String) : FileOutcome :=
  if isPDFFile f then .protectedPdf (qpdf f.bytes password)
  else if isImageFile f then
    .genericEncrypted (encryptFileEncf b salt iv password f.bytes)
  else .unsupportedError

/-- The early rejections of `handleEncrypt` (`Encrypt.tsx` lines 21-47):
empty password, mismatched confirmation, empty file list. -/
inductive UiReject
  | passwordRequired
  | passwordsMismatch
  | noFiles
deriving DecidableEq

/-- `handleEncrypt` of `Encrypt.tsx`: the guards run in source order before
any file is touched; then every file is processed with fresh randomness
(`rnd` maps the loop index to the (salt, iv) pair drawn inside the engine
for that file). -/
def handleEncrypt (qpdf : Bytes → String → Bytes) (b : Backend)
    (rnd : Nat → Bytes × Bytes) (files : List JsFile)
    (password confirmPassword : String) :
    Except UiReject (List FileOutcome) :=
  if password = ("") then .error .passwordRequired
  else if password ≠ confirmPassword then .error .passwordsMismatch
  else if files.length = 0 then .error .noFiles
  else .ok (files.enum.map (fun p =>
    routeFile qpdf b (rnd p.1).1 (rnd p.1).2 p.2 password))

/-- The external pdf-lib collaborator as `decryptPDF` uses it:
`load` is `PDFDocument.load(bytes, ignoreEncryption True)` — it may throw
(modelled by `Except.error` carrying the message) — and `save` is
`pdfDoc.save()`. -/
structure PdfLib where
  load : Bytes → Except String Bytes
  save : Bytes → Bytes

/-- Failure kinds of `decryptPDF` in `pdf-utils.ts`: the incorrect-password
message is produced only when a caught error message mentions `password`;
everything else becomes the corrupted-file message. -/
inductive PdfUnlockError
  | incorrectPassword
  | failedUnlock
deriving DecidableEq

/-- `decryptPDF` of `pdf-utils.ts` (lines 75-94): load with encryption
ignored, save, and classify a caught error by sniffing its message.  The
`password` argument is never consulted. -/
def decryptPDF (lib : PdfLib) (fileBytes : Bytes) (password : String) :
    Except PdfUnlockError Bytes :=
  match lib.load fileBytes with
  | .ok doc => .ok (lib.save doc)
  | .error e =>
    .error (if containsSubstr e ("password") then .incorrectPassword
            else .failedUnlock)

/-- Reading the metadata block straight out of the container bytes, with no
password: length from the first four bytes, then that many bytes. -/
def readMeta (container : Bytes) : Bytes :=
  (container.drop 4).take (leU32 (container.take 4))

/-! ### Concrete backend and inputs for witnesses

A concrete stand-in for the WebCrypto backend, used only to instantiate
witnesses and counterexamples at evaluable inputs.  Its sealing appends the
key as the tag, so opening succeeds exactly when the trailing bytes equal
the key; its metadata codec serializes just the size field. -/

def toyBackend : Backend where
  kdf := fun password salt => password.data.map Char.toNat ++ salt
  enc := fun key _iv p => p ++ key
  dec := fun key _iv c =>
    if key.length ≤ c.length ∧ c.drop (c.length - key.length) = key then
      some (c.take (c.length - key.length))
    else none
  stringifyMeta := fun m => [m.originalSize]
  parseMeta := fun bs =>
    match bs with
    | [n] => some ⟨"", "", n⟩
    | _ => none

def toyQpdf : Bytes → String → Bytes := fun bs _ => 37 :: bs

def toyMeta : FileMeta := ⟨"", "", 3⟩

def wSalt : Bytes := List.range 16

def wSalt2 : Bytes := (List.range 16).map (fun n => n + 1)

def wIv : Bytes := List.range 12

def wP : Bytes := List.range 10

def txtFile : JsFile := ⟨"doc.txt", "text/plain", [1, 2, 3]⟩

def pdfFile : JsFile := ⟨"a.PDF", "application/pdf", [9, 9]⟩

def pngFile : JsFile := ⟨"b.PNG", "image/png", [7]⟩

/-! ### Layout lemmas -/

lemma take_len_append (l1 l2 : Bytes) (n : Nat) (h : l1.length = n) :
    (l1 ++ l2).take n = l1 := by
  subst h; exact List.take_left l1 l2

lemma drop_len_append (l1 l2 : Bytes) (n : Nat) (h : l1.length = n) :
    (l1 ++ l2).drop n = l2 := by
  subst h; exact List.drop_left l1 l2

lemma leU32_u32le (n : Nat) : leU32 (u32le n) = n % 4294967296 := by
  simp [u32le, leU32]; omega

lemma container_assoc (a b c d e : Bytes) :
    a ++ b ++ c ++ d ++ e = a ++ (b ++ (c ++ (d ++ e))) := by
  simp [List.append_assoc]

/-- Decoding a container laid out as length ++ metadata ++ salt ++ iv ++
ciphertext recovers exactly those fields. -/
lemma decodeFields_layout (L : Nat) (mb salt iv ct : Bytes)
    (hmb : mb.length = L) (hL : L < 4294967296)
    (hs : salt.length = 16) (hiv : iv.length = 12) :
    decodeFields (u32le L ++ mb ++ salt ++ iv ++ ct) = ⟨L, mb, salt, iv, ct⟩ := by
  rw [container_assoc]
  have e1 : (u32le L ++ (mb ++ (salt ++ (iv ++ ct)))).take 4 = u32le L :=
    take_len_append _ _ 4 rfl
  have e2 : (u32le L ++ (mb ++ (salt ++ (iv ++ ct)))).drop 4 =
      mb ++ (salt ++ (iv ++ ct)) :=
    drop_len_append _ _ 4 rfl
  have eL : leU32 ((u32le L ++ (mb ++ (salt ++ (iv ++ ct)))).take 4) = L := by
    rw [e1, leU32_u32le, Nat.mod_eq_of_lt hL]
  have e3 : (mb ++ (salt ++ (iv ++ ct))).take L = mb := take_len_append _ _ L hmb
  have e4 : (u32le L ++ (mb ++ (salt ++ (iv ++ ct)))).drop (4 + L) =
      salt ++ (iv ++ ct) := by
    have h := congrArg (List.drop L) e2
    rw [List.drop_drop, drop_len_append _ _ L hmb] at h
    exact h
  have e5 : (salt ++ (iv ++ ct)).take 16 = salt := take_len_append _ _ 16 hs
  have e6 : (u32le L ++ (mb ++ (salt ++ (iv ++ ct)))).drop (4 + L + 16) =
      iv ++ ct := by
    have h := congrArg (List.drop 16) e4
    rw [List.drop_drop, drop_len_append _ _ 16 hs] at h
    exact h
  have e7 : (iv ++ ct).take 12 = iv := take_len_append _ _ 12 hiv
  have e8 : (u32le L ++ (mb ++ (salt ++ (iv ++ ct)))).drop (4 + L + 16 + 12) =
      ct := by
    have h := congrArg (List.drop 12) e6
    rw [List.drop_drop, drop_len_append _ _ 12 hiv] at h
    exact h
  simp only [decodeFields]
  rw [eL, e2, e3, e4, e5, e6, e7, e8]

/-- Running `decryptFile` over a container laid out as length ++ metadata ++
salt ++ iv ++ ciphertext: the guard passes, the fields decode exactly, and
the result is decided by the JSON parse of the metadata slice and the AEAD
opening of the ciphertext. -/
lemma decryptFileMeta_layout (b : Backend) (L : Nat) (mb salt iv ct : Bytes)
    (password : String) (hmb : mb.length = L) (hL : L < 4294967296)
    (hs : salt.length = 16) (hiv : iv.length = 12) :
    decryptFileMeta b (u32le L ++ mb ++ salt ++ iv ++ ct) password =
      match b.parseMeta mb with
      | none => .error .jsonError
      | some m =>
        match b.dec (b.kdf password salt) iv ct with
        | none => .error .incorrectPassword
        | some p => .ok ⟨p, m⟩ := by
  have hlen : ¬((u32le L ++ mb ++ salt ++ iv ++ ct).length ≠ 0 ∧
      (u32le L ++ mb ++ salt ++ iv ++ ct).length < 4) := by
    intro h
    have h2 := h.2
    simp [u32le] at h2
    omega
  rw [decryptFileMeta, if_neg hlen,
    decodeFields_layout L mb salt iv ct hmb hL hs hiv]

lemma encryptFileMeta_def (b : Backend) (salt iv : Bytes) (password : String)
    (m : FileMeta) (data : Bytes) :
    encryptFileMeta b salt iv password m data =
      u32le (b.stringifyMeta m).length ++ b.stringifyMeta m ++ salt ++ iv ++
        b.enc (b.kdf password salt) iv data := rfl

/-! ### The claims -/

/-- Claim C1: for every byte buffer (the empty buffer included) and every
non-empty password, decrypting the container produced by the
metadata-variant `encryptFile` with the same password succeeds and returns
exactly the plaintext, and the metadata block embedded in the container is
byte-identical to what `encryptFile` stored.  The hypotheses are the
guarantees of the WebCrypto backend: AES-GCM opening inverts sealing under
the same derived key and iv, and `JSON.parse` inverts `JSON.stringify`. -/
theorem claim1_roundtrip (b : Backend) (salt iv : Bytes) (password : String)
    (m : FileMeta) (P : Bytes)
    (_hpw : password ≠ "")
    (hs : salt.length = 16) (hiv : iv.length = 12)
    (hm : (b.stringifyMeta m).length < 4294967296)
    (hparse : b.parseMeta (b.stringifyMeta m) = some m)
    (hdec : b.dec (b.kdf password salt) iv
        (b.enc (b.kdf password salt) iv P) = some P) :
    decryptFileMeta b (encryptFileMeta b salt iv password m P) password =
      .ok ⟨P, m⟩ ∧
    (decodeFields (encryptFileMeta b salt iv password m P)).metaBytes =
      b.stringifyMeta m := by
  constructor
  · rw [encryptFileMeta_def,
      decryptFileMeta_layout b (b.stringifyMeta m).length (b.stringifyMeta m)
        salt iv (b.enc (b.kdf password salt) iv P) password rfl hm hs hiv]
    simp only [hparse, hdec]
  · rw [encryptFileMeta_def,
      decodeFields_layout (b.stringifyMeta m).length (b.stringifyMeta m)
        salt iv (b.enc (b.kdf password salt) iv P) rfl hm hs hiv]

theorem claim1_roundtrip_witness :
    decryptFileMeta toyBackend
        (encryptFileMeta toyBackend wSalt wIv ("pw") toyMeta wP) ("pw") =
      .ok ⟨wP, toyMeta⟩ ∧
    decryptFileMeta toyBackend
        (encryptFileMeta toyBackend wSalt wIv ("pw") toyMeta []) ("pw") =
      .ok ⟨[], toyMeta⟩ :=
  ⟨(claim1_roundtrip toyBackend wSalt wIv ("pw") toyMeta wP (by decide)
      (by decide) (by decide) (by decide) (by decide) (by decide)).1,
   (claim1_roundtrip toyBackend wSalt wIv ("pw") toyMeta [] (by decide)
      (by decide) (by decide) (by decide) (by decide) (by decide)).1⟩

/-- Claim C2: for every plaintext and every pair of distinct passwords
(passwords differing only in case or whitespace are distinct), decrypting a
container produced under the first password with the second password fails
with the incorrect-password error (the caught AEAD tag-verification
failure) and never returns a plaintext.  The hypotheses are the platform
guarantees of the platform AEAD at these inputs: the two derived keys differ in effect,
so opening under the second key reports tag failure. -/
theorem claim2_wrong_password (b : Backend) (salt iv : Bytes)
    (pw1 pw2 : String) (m : FileMeta) (P : Bytes)
    (_hne : pw1 ≠ pw2)
    (hs : salt.length = 16) (hiv : iv.length = 12)
    (hm : (b.stringifyMeta m).length < 4294967296)
    (hparse : b.parseMeta (b.stringifyMeta m) = some m)
    (hauth : b.dec (b.kdf pw2 salt) iv
        (b.enc (b.kdf pw1 salt) iv P) = none) :
    decryptFileMeta b (encryptFileMeta b salt iv pw1 m P) pw2 =
      .error .incorrectPassword := by
  rw [encryptFileMeta_def,
    decryptFileMeta_layout b (b.stringifyMeta m).length (b.stringifyMeta m)
      salt iv (b.enc (b.kdf pw1 salt) iv P) pw2 rfl hm hs hiv]
  simp only [hparse, hauth]

theorem claim2_wrong_password_witness :
    decryptFileMeta toyBackend
        (encryptFileMeta toyBackend wSalt wIv ("Secret") toyMeta wP)
        ("secret") = .error .incorrectPassword :=
  claim2_wrong_password toyBackend wSalt wIv ("Secret") ("secret") toyMeta wP
    (by decide) (by decide) (by decide) (by decide) (by decide) (by decide)

lemma decode_covers (data : Bytes) (L : Nat) :
    data.take 4 ++ ((data.drop 4).take L ++ ((data.drop (4 + L)).take 16 ++
      ((data.drop (4 + L + 16)).take 12 ++ data.drop (4 + L + 16 + 12)))) =
      data := by
  have h1 := List.take_append_drop 12 (data.drop (4 + L + 16))
  rw [List.drop_drop] at h1
  have h2 := List.take_append_drop 16 (data.drop (4 + L))
  rw [List.drop_drop] at h2
  have h3 := List.take_append_drop L (data.drop 4)
  rw [List.drop_drop] at h3
  rw [h1, h2, h3]
  exact List.take_append_drop 4 data

/-- Every run of `decryptFile` ends in one of its three actual outcomes or
success. -/
lemma decryptFileMeta_cases (b : Backend) (data : Bytes) (password : String) :
    decryptFileMeta b data password = .error .rangeError ∨
    decryptFileMeta b data password = .error .jsonError ∨
    decryptFileMeta b data password = .error .incorrectPassword ∨
    ∃ r, decryptFileMeta b data password = .ok r := by
  unfold decryptFileMeta
  by_cases h : data.length ≠ 0 ∧ data.length < 4
  · rw [if_pos h]
    left; rfl
  · rw [if_neg h]
    cases hpm : b.parseMeta (decodeFields data).metaBytes with
    | none => right; left; simp [hpm]
    | some mm =>
      cases hdc : b.dec (b.kdf password (decodeFields data).salt)
          (decodeFields data).iv (decodeFields data).ciphertext with
      | none => right; right; left; simp [hpm, hdc]
      | some p =>
        right; right; right
        exact ⟨⟨p, mm⟩, by simp [hpm, hdc]⟩

/-- Claim C3 counterexample: a three-byte truncated input is not rejected
with `MalformedContainerError` as the spec says; `decryptFile` hits the platform
`RangeError` thrown by `new Uint32Array` on a buffer whose byte length is
not a multiple of four, before any validation could run. -/
theorem claim3_counterexample :
    decryptFileMeta toyBackend [1, 2, 3] ("pw") = .error .rangeError ∧
    decryptFileMeta toyBackend [1, 2, 3] ("pw") ≠
      .error .malformedContainer := by
  constructor
  · decide
  · decide

/-- Claim C3 amended: `decryptFile` performs no structural validation and
no code path produces `MalformedContainerError`.  Decoding splits the
buffer with clamped slices that exactly cover the input — it can never read
past the end — and an input of one to three bytes fails with the platform
`RangeError` (before key derivation: the result does not depend on the
password or on any backend primitive). -/
theorem claim3_no_validation (b : Backend) (data : Bytes) (password : String) :
    decryptFileMeta b data password ≠ .error .malformedContainer
  ∧ data.take 4 ++ ((decodeFields data).metaBytes ++ ((decodeFields data).salt ++
      ((decodeFields data).iv ++ (decodeFields data).ciphertext))) = data
  ∧ (data.length ≠ 0 → data.length < 4 →
      decryptFileMeta b data password = .error .rangeError) := by
  refine ⟨?_, ?_, ?_⟩
  · rcases decryptFileMeta_cases b data password with h | h | h | ⟨r, h⟩ <;>
      rw [h] <;> simp
  · simp only [decodeFields]
    exact decode_covers data (leU32 (data.take 4))
  · intro h1 h2
    unfold decryptFileMeta
    rw [if_pos ⟨h1, h2⟩]

theorem claim3_no_validation_witness :
    decryptFileMeta toyBackend [5, 6] ("x") ≠ .error .malformedContainer ∧
    decryptFileMeta toyBackend [5, 6] ("x") = .error .rangeError :=
  ⟨(claim3_no_validation toyBackend [5, 6] ("x")).1,
   (claim3_no_validation toyBackend [5, 6] ("x")).2.2 (by decide) (by decide)⟩

lemma encryptFileEncf_def (b : Backend) (salt iv : Bytes) (password : String)
    (data : Bytes) :
    encryptFileEncf b salt iv password data =
      encfMagic ++ (salt ++ (iv ++ b.enc (b.kdf password salt) iv data)) := by
  rw [encryptFileEncf]
  simp [List.append_assoc]

/-- Claim C4 counterexample: a metadata-variant encryption call whose
serialized container does not begin with the 4-byte magic sentinel — its
first field is the metadata length, and no magic is written at all. -/
theorem claim4_counterexample :
    (encryptFileMeta toyBackend wSalt wIv ("pw") toyMeta wP).take 4 ≠
      encfMagic := by
  decide

/-- Claim C4 amended: only the magic variant of `encryptFile` starts with
the constant 4-byte magic sentinel, followed by the 16-byte salt, 12-byte
iv, and ciphertext-with-tag, in that order and with no metadata block; the
metadata variant instead starts with the 4-byte little-endian metadata
length followed by metadata, salt, iv and ciphertext, and carries no magic
sentinel. -/
theorem claim4_layout (b : Backend) (salt iv : Bytes) (password : String)
    (m : FileMeta) (P : Bytes)
    (hs : salt.length = 16) (hiv : iv.length = 12)
    (hm : (b.stringifyMeta m).length < 4294967296) :
    (encryptFileEncf b salt iv password P).take 4 = encfMagic
  ∧ ((encryptFileEncf b salt iv password P).drop 4).take 16 = salt
  ∧ ((encryptFileEncf b salt iv password P).drop 20).take 12 = iv
  ∧ (encryptFileEncf b salt iv password P).drop 32 =
      b.enc (b.kdf password salt) iv P
  ∧ decodeFields (encryptFileMeta b salt iv password m P) =
      ⟨(b.stringifyMeta m).length, b.stringifyMeta m, salt, iv,
        b.enc (b.kdf password salt) iv P⟩
  ∧ (encryptFileMeta b salt iv password m P).take 4 =
      u32le (b.stringifyMeta m).length := by
  have hdef := encryptFileEncf_def b salt iv password P
  have hd4 : (encryptFileEncf b salt iv password P).drop 4 =
      salt ++ (iv ++ b.enc (b.kdf password salt) iv P) := by
    rw [hdef]
    exact drop_len_append _ _ 4 rfl
  have hd20 : (encryptFileEncf b salt iv password P).drop 20 =
      iv ++ b.enc (b.kdf password salt) iv P := by
    have h := congrArg (List.drop 16) hd4
    rw [List.drop_drop, drop_len_append _ _ 16 hs] at h
    exact h
  have hd32 : (encryptFileEncf b salt iv password P).drop 32 =
      b.enc (b.kdf password salt) iv P := by
    have h := congrArg (List.drop 12) hd20
    rw [List.drop_drop, drop_len_append _ _ 12 hiv] at h
    exact h
  refine ⟨?_, ?_, ?_, hd32, ?_, ?_⟩
  · rw [hdef]
    exact take_len_append _ _ 4 rfl
  · rw [hd4]
    exact take_len_append _ _ 16 hs
  · rw [hd20]
    exact take_len_append _ _ 12 hiv
  · rw [encryptFileMeta_def]
    exact decodeFields_layout (b.stringifyMeta m).length (b.stringifyMeta m)
      salt iv (b.enc (b.kdf password salt) iv P) rfl hm hs hiv
  · rw [encryptFileMeta_def, container_assoc]
    exact take_len_append _ _ 4 rfl

theorem claim4_layout_witness :
    (encryptFileEncf toyBackend wSalt wIv ("pw") wP).take 4 = encfMagic ∧
    (encryptFileMeta toyBackend wSalt wIv ("pw") toyMeta wP).take 4 =
      u32le (toyBackend.stringifyMeta toyMeta).length :=
  ⟨(claim4_layout toyBackend wSalt wIv ("pw") toyMeta wP (by decide)
      (by decide) (by decide)).1,
   (claim4_layout toyBackend wSalt wIv ("pw") toyMeta wP (by decide)
      (by decide) (by decide)).2.2.2.2.2⟩

lemma encf_salt_slice (b : Backend) (salt iv : Bytes) (password : String)
    (data : Bytes) (hs : salt.length = 16) :
    ((encryptFileEncf b salt iv password data).drop 4).take 16 = salt := by
  rw [encryptFileEncf_def b salt iv password data,
    drop_len_append encfMagic
      (salt ++ (iv ++ b.enc (b.kdf password salt) iv data)) 4 rfl]
  exact take_len_append _ _ 16 hs

lemma encf_iv_slice (b : Backend) (salt iv : Bytes) (password : String)
    (data : Bytes) (hs : salt.length = 16) (hiv : iv.length = 12) :
    ((encryptFileEncf b salt iv password data).drop 20).take 12 = iv := by
  have hd4 : (encryptFileEncf b salt iv password data).drop 4 =
      salt ++ (iv ++ b.enc (b.kdf password salt) iv data) := by
    rw [encryptFileEncf_def b salt iv password data]
    exact drop_len_append _ _ 4 rfl
  have h := congrArg (List.drop 16) hd4
  rw [List.drop_drop, drop_len_append _ _ 16 hs] at h
  have h20 : (encryptFileEncf b salt iv password data).drop 20 =
      iv ++ b.enc (b.kdf password salt) iv data := h
  rw [h20]
  exact take_len_append _ _ 12 hiv

/-- Claim C5: for every file list (and hence every plaintext), calling the
caller-facing encrypt flow with an empty password is rejected — the
`Password required` guard, realizing `WeakInputError` of the spec taxonomy — before
any cryptographic work: the result is the rejection for every choice of
backend, randomness and external PDF encryptor, so no salt/iv generation,
key derivation or AEAD call can have taken place, and no file is
processed. -/
theorem claim5_empty_password (qpdf : Bytes → String → Bytes) (b : Backend)
    (rnd : Nat → Bytes × Bytes) (files : List JsFile)
    (confirmPassword : String) :
    handleEncrypt qpdf b rnd files ("") confirmPassword =
      .error .passwordRequired := by
  rw [handleEncrypt, if_pos rfl]

/-- Claim C6: two encryption calls over the same plaintext and password
whose fresh random draws differ (in the salt or in the iv — the guarantee
the secure random source provides) never produce identical container bytes,
in either variant; yet both metadata-variant containers decrypt to the same
plaintext under that password. -/
theorem claim6_freshness (b : Backend) (s1 i1 s2 i2 : Bytes)
    (password : String) (m : FileMeta) (P : Bytes)
    (hs1 : s1.length = 16) (hs2 : s2.length = 16)
    (hi1 : i1.length = 12) (hi2 : i2.length = 12)
    (hfresh : s1 ≠ s2 ∨ i1 ≠ i2)
    (hm : (b.stringifyMeta m).length < 4294967296)
    (hparse : b.parseMeta (b.stringifyMeta m) = some m)
    (hd1 : b.dec (b.kdf password s1) i1 (b.enc (b.kdf password s1) i1 P) =
      some P)
    (hd2 : b.dec (b.kdf password s2) i2 (b.enc (b.kdf password s2) i2 P) =
      some P) :
    encryptFileMeta b s1 i1 password m P ≠ encryptFileMeta b s2 i2 password m P
  ∧ encryptFileEncf b s1 i1 password P ≠ encryptFileEncf b s2 i2 password P
  ∧ decryptFileMeta b (encryptFileMeta b s1 i1 password m P) password =
      .ok ⟨P, m⟩
  ∧ decryptFileMeta b (encryptFileMeta b s2 i2 password m P) password =
      .ok ⟨P, m⟩ := by
  refine ⟨?_, ?_, ?_, ?_⟩
  · intro hc
    have h := congrArg decodeFields hc
    rw [encryptFileMeta_def, encryptFileMeta_def,
      decodeFields_layout (b.stringifyMeta m).length (b.stringifyMeta m)
        s1 i1 (b.enc (b.kdf password s1) i1 P) rfl hm hs1 hi1,
      decodeFields_layout (b.stringifyMeta m).length (b.stringifyMeta m)
        s2 i2 (b.enc (b.kdf password s2) i2 P) rfl hm hs2 hi2] at h
    rcases hfresh with hf | hf
    · exact hf (congrArg DecodedFields.salt h)
    · exact hf (congrArg DecodedFields.iv h)
  · intro hc
    have e1 : ((encryptFileEncf b s1 i1 password P).drop 4).take 16 =
        ((encryptFileEncf b s2 i2 password P).drop 4).take 16 := by rw [hc]
    rw [encf_salt_slice b s1 i1 password P hs1,
      encf_salt_slice b s2 i2 password P hs2] at e1
    have e2 : ((encryptFileEncf b s1 i1 password P).drop 20).take 12 =
        ((encryptFileEncf b s2 i2 password P).drop 20).take 12 := by rw [hc]
    rw [encf_iv_slice b s1 i1 password P hs1 hi1,
      encf_iv_slice b s2 i2 password P hs2 hi2] at e2
    rcases hfresh with hf | hf
    · exact hf e1
    · exact hf e2
  · rw [encryptFileMeta_def,
      decryptFileMeta_layout b (b.stringifyMeta m).length (b.stringifyMeta m)
        s1 i1 (b.enc (b.kdf password s1) i1 P) password rfl hm hs1 hi1]
    simp only [hparse, hd1]
  · rw [encryptFileMeta_def,
      decryptFileMeta_layout b (b.stringifyMeta m).length (b.stringifyMeta m)
        s2 i2 (b.enc (b.kdf password s2) i2 P) password rfl hm hs2 hi2]
    simp only [hparse, hd2]

theorem claim6_freshness_witness :
    encryptFileMeta toyBackend wSalt wIv ("pw") toyMeta wP ≠
      encryptFileMeta toyBackend wSalt2 wIv ("pw") toyMeta wP ∧
    decryptFileMeta toyBackend
        (encryptFileMeta toyBackend wSalt2 wIv ("pw") toyMeta wP) ("pw") =
      .ok ⟨wP, toyMeta⟩ :=
  let h := claim6_freshness toyBackend wSalt wIv wSalt2 wIv ("pw") toyMeta wP
    (by decide) (by decide) (by decide) (by decide) (Or.inl (by decide))
    (by decide) (by decide) (by decide) (by decide)
  ⟨h.1, h.2.2.2⟩

/-- Claim C7 counterexample: a plain text file — classified neither as pdf
nor as image — is not passed to the generic encryption engine; the
dispatcher rejects it with `Unsupported file type`. -/
theorem claim7_counterexample :
    routeFile toyQpdf toyBackend wSalt wIv txtFile ("pw") =
      .unsupportedError := by
  decide

/-- Claim C7 amended: the dispatcher routes pdf-classified files to the
external PDF collaborator with their bytes and password unmodified, routes
image-classified files to the generic-engine encrypt, and rejects every
file that is neither pdf- nor image-classified with the
`Unsupported file type` error. -/
theorem claim7_routing (qpdf : Bytes → String → Bytes) (b : Backend)
    (salt iv : Bytes) (f : JsFile) (password : String) :
    (isPDFFile f = true →
      routeFile qpdf b salt iv f password =
        .protectedPdf (qpdf f.bytes password))
  ∧ (isPDFFile f = false → isImageFile f = true →
      routeFile qpdf b salt iv f password =
        .genericEncrypted (encryptFileEncf b salt iv password f.bytes))
  ∧ (isPDFFile f = false → isImageFile f = false →
      routeFile qpdf b salt iv f password = .unsupportedError) := by
  refine ⟨?_, ?_, ?_⟩
  · intro h
    rw [routeFile, if_pos h]
  · intro h1 h2
    rw [routeFile, if_neg (by simp [h1]), if_pos h2]
  · intro h1 h2
    rw [routeFile, if_neg (by simp [h1]), if_neg (by simp [h2])]

theorem claim7_routing_witness :
    routeFile toyQpdf toyBackend wSalt wIv pdfFile ("pw") =
      .protectedPdf (toyQpdf pdfFile.bytes ("pw")) ∧
    routeFile toyQpdf toyBackend wSalt wIv pngFile ("pw") =
      .genericEncrypted (encryptFileEncf toyBackend wSalt wIv ("pw")
        pngFile.bytes) :=
  ⟨(claim7_routing toyQpdf toyBackend wSalt wIv pdfFile ("pw")).1 (by decide),
   (claim7_routing toyQpdf toyBackend wSalt wIv pngFile ("pw")).2.1
     (by decide) (by decide)⟩

/-- Claim C8 counterexample: a declared MIME type that contains a PDF
indicator without being exactly `application/pdf` — here `text/pdf` with a
non-pdf filename — is classified pdf by the spec rule but generic by the
code. -/
theorem claim8_counterexample :
    specClassifiesPdf ("notes.txt") ("text/pdf") = true ∧
    isPDFFile ⟨"notes.txt", "text/pdf", []⟩ = false := by
  constructor
  · decide
  · decide

/-- Claim C8 amended: classification returns pdf exactly when the declared
MIME type is exactly `application/pdf` (not merely containing a PDF
indicator) or the filename, lowercased, ends with `.pdf`; the rule in the
code is strictly narrower than the spec rule — every input the code
classifies pdf is also pdf under the contains-based spec rule. -/
theorem claim8_classification (name mimeType : String) (bytes : Bytes) :
    (isPDFFile ⟨name, mimeType, bytes⟩ = true ↔
      (mimeType = ("application/pdf") ∨ endsWithCI name (".pdf") = true))
  ∧ (isPDFFile ⟨name, mimeType, bytes⟩ = true →
      specClassifiesPdf name mimeType = true) := by
  constructor
  · simp [isPDFFile]
  · intro h
    simp only [isPDFFile, Bool.or_eq_true, beq_iff_eq] at h
    rcases h with h | h
    · subst h
      have hc : containsSubstr ("application/pdf") ("pdf") = true := by decide
      simp [specClassifiesPdf, hc]
    · simp [specClassifiesPdf, h]

theorem claim8_classification_witness :
    specClassifiesPdf ("x.PdF") ("text/plain") = true :=
  (claim8_classification ("x.PdF") ("text/plain") []).2 (by decide)

/-- Claim C9: `decryptPDF` loads the document with encryption ignored and
never consults the supplied password — for every library behavior, every
input and any two passwords the результат is identical, so a wrong password
can never be detected on this path. -/
theorem claim9_password_ignored (lib : PdfLib) (fileBytes : Bytes)
    (pw1 pw2 : String) :
    decryptPDF lib fileBytes pw1 = decryptPDF lib fileBytes pw2 := rfl

/-- Claim C10: every metadata-variant container carries the metadata JSON
in the clear at the front (before the salt): it is readable from the
container bytes alone, with no password (`readMeta` takes none); it is
unauthenticated — replacing the metadata block with any same-length bytes
still decrypts to the original plaintext, now reporting the substituted
metadata; and decrypt parses it before any key derivation or tag
verification — when the parse fails, the result is the JSON error for
every key-derivation and AEAD backend and every password. -/
theorem claim10_metadata_in_clear (b : Backend) (salt iv : Bytes)
    (password : String) (m m2 : FileMeta) (P newMeta : Bytes)
    (hs : salt.length = 16) (hiv : iv.length = 12)
    (hm : (b.stringifyMeta m).length < 4294967296)
    (hlen : newMeta.length = (b.stringifyMeta m).length)
    (hparse2 : b.parseMeta newMeta = some m2)
    (hdec : b.dec (b.kdf password salt) iv
        (b.enc (b.kdf password salt) iv P) = some P) :
    readMeta (encryptFileMeta b salt iv password m P) = b.stringifyMeta m
  ∧ decryptFileMeta b
      (u32le (b.stringifyMeta m).length ++ newMeta ++ salt ++ iv ++
        b.enc (b.kdf password salt) iv P) password = .ok ⟨P, m2⟩
  ∧ (∀ (kdf2 : String → Bytes → Bytes)
      (enc2 : Bytes → Bytes → Bytes → Bytes)
      (dec2 : Bytes → Bytes → Bytes → Option Bytes) (pw2 : String)
      (data : Bytes),
      b.parseMeta (decodeFields data).metaBytes = none →
      ¬(data.length ≠ 0 ∧ data.length < 4) →
      decryptFileMeta ⟨kdf2, enc2, dec2, b.stringifyMeta, b.parseMeta⟩ data
        pw2 = .error .jsonError) := by
  refine ⟨?_, ?_, ?_⟩
  · rw [encryptFileMeta_def, readMeta, container_assoc,
      take_len_append (u32le (b.stringifyMeta m).length) _ 4 rfl,
      leU32_u32le, Nat.mod_eq_of_lt hm,
      drop_len_append (u32le (b.stringifyMeta m).length) _ 4 rfl]
    exact take_len_append _ _ _ rfl
  · rw [decryptFileMeta_layout b (b.stringifyMeta m).length newMeta salt iv
      (b.enc (b.kdf password salt) iv P) password hlen hm hs hiv]
    simp only [hparse2, hdec]
  · intro kdf2 enc2 dec2 pw2 data hpm hguard
    unfold decryptFileMeta
    rw [if_neg hguard]
    simp [hpm]

theorem claim10_metadata_in_clear_witness :
    readMeta (encryptFileMeta toyBackend wSalt wIv ("pw") toyMeta wP) =
      toyBackend.stringifyMeta toyMeta ∧
    decryptFileMeta toyBackend
        (u32le (toyBackend.stringifyMeta toyMeta).length ++ [7] ++ wSalt ++
          wIv ++ toyBackend.enc (toyBackend.kdf ("pw") wSalt) wIv wP)
        ("pw") = .ok ⟨wP, ⟨"", "", 7⟩⟩ :=
  let h := claim10_metadata_in_clear toyBackend wSalt wIv ("pw") toyMeta
    ⟨"", "", 7⟩ wP [7] (by decide) (by decide) (by decide) (by decide)
    (by decide) (by decide)
  ⟨h.1, h.2.1⟩
